import Mathlib

/-!
Verification of the enphase-energy telemetry collector (src/main.rs).

The Rust source is shallowly embedded as executable Lean definitions.
Strings are modelled by their sequences of Unicode scalar values
(`List Nat` via `Char.toNat`); the inputs of interest are ASCII, where
scalar values coincide with the bytes Rust iterates over.  Machine
integers (`i32`) are modelled as `Int` with explicit wrap-around
modulo `2 ^ 32` at the points where release-mode Rust wraps.  Every
`unwrap`/`expect` panic in the source is modelled as `none` /
`Except.error`, since a panic aborts the process.
-/

/-- Scalar values of a string's characters (the model of a Rust `&str`). -/
def strCodes (s : String) : List Nat := s.toList.map Char.toNat

/-- ASCII whitespace test on a scalar value, as used by Rust
`split_ascii_whitespace` (space, tab, newline, form feed, carriage return). -/
def isWsCode (n : Nat) : Bool :=
  n == 32 || n == 9 || n == 10 || n == 12 || n == 13

/-- ASCII digit test on a scalar value (Rust `char::is_ascii_digit`,
the character class accepted by `str::parse::<i32>`). -/
def isDigitCode (n : Nat) : Bool := 48 ≤ n && n ≤ 57

/-- Rust `u8::to_ascii_uppercase` on a scalar value: lowercase ASCII
letters are shifted down by 32, everything else is unchanged. -/
def upperCode (n : Nat) : Nat := if 97 ≤ n ∧ n ≤ 122 then n - 32 else n

/-- Split on every whitespace scalar, keeping empty pieces.
Helper for `splitWs`. -/
def splitKeep : List Nat → List (List Nat)
  | [] => [[]]
  | c :: cs =>
    if isWsCode c then [] :: splitKeep cs
    else
      match splitKeep cs with
      | [] => [[c]]
      | t :: ts => (c :: t) :: ts

/-- Rust `str::split_ascii_whitespace`: maximal runs of non-whitespace
scalars, in order, with empty runs discarded. -/
def splitWs (ns : List Nat) : List (List Nat) :=
  (splitKeep ns).filter (fun t => !t.isEmpty)

/-- Value of a digit string read in base 10 (accumulator form, mirroring
the way `str::parse` folds over the digits). -/
def digitsVal (ns : List Nat) : Nat :=
  ns.foldl (fun a n => a * 10 + (n - 48)) 0

/-- Decimal value of a digit string given as characters. -/
def decimalValue (ds : List Char) : Nat := digitsVal (ds.map Char.toNat)

/-- The digits-only part of Rust `str::parse::<i32>`: fails on an empty
string, on any non-digit scalar, and on values outside the `i32` range
(`parse` returns `Err` on overflow; the caller `unwrap`s, so overflow
is a failure, not a wrap). -/
def parseDigits (sign : Int) (ds : List Nat) : Option Int :=
  if ds.isEmpty then none
  else if ds.all isDigitCode then
    let v : Int := sign * (digitsVal ds : Int)
    if -(2 ^ 31) ≤ v ∧ v ≤ 2 ^ 31 - 1 then some v else none
  else none

/-- Rust `str::parse::<i32>`: an optional leading `+` (scalar 43) or `-`
(scalar 45) followed by one or more ASCII digits, value within the
`i32` range. -/
def parseI32 : List Nat → Option Int
  | [] => none
  | c :: rest =>
    if c == 43 then parseDigits 1 rest
    else if c == 45 then parseDigits (-1) rest
    else parseDigits 1 (c :: rest)

/-- Two's-complement wrap into the `i32` range, the behaviour of a Rust
release-build `i32` multiplication on overflow. -/
def i32wrap (x : Int) : Int := (x + 2 ^ 31) % 2 ^ 32 - 2 ^ 31

/-- A natural number reduced modulo `2 ^ 32` read back as a signed
32-bit value. -/
def toSigned32 (n : Nat) : Int :=
  if n % 2 ^ 32 < 2 ^ 31 then (n % 2 ^ 32 : Nat) else (n % 2 ^ 32 : Nat) - 2 ^ 32

/-- The unit multiplier chain of `decode_memory_string`
(src/main.rs lines 149-155): the uppercased unit token is compared
against `"MB"`, `"GB"`, `"KB"`; anything else is left unscaled. -/
def unitMult (l : List Nat) : Int :=
  if l == strCodes "MB" then 1024 * 1024
  else if l == strCodes "GB" then 1024 * 1024 * 1024
  else if l == strCodes "KB" then 1024
  else 1

/-- Core of `decode_memory_string` (src/main.rs lines 141-157) on scalar
values: take the first whitespace-separated token (`unwrap` on absence),
`parse::<i32>().unwrap()` it, take the second token (`unwrap` on
absence), uppercase it, scale by the unit multiplier with release-mode
`i32` wrapping. -/
def decode_memory_core (ns : List Nat) : Option Int :=
  match splitWs ns with
  | [] => none
  | numTok :: rest =>
    match parseI32 numTok with
    | none => none
    | some number =>
      match rest with
      | [] => none
      | multTok :: _ =>
        some (i32wrap (number * unitMult (multTok.map upperCode)))

/-- `decode_memory_string` (src/main.rs lines 141-157), the size-string
normalizer used for the `db_size` field. -/
def decode_memory_string (s : String) : Option Int :=
  decode_memory_core (strCodes s)

/-- `string_to_i32` (src/main.rs lines 134-139), the numeric-string
normalizer used for the `db_percent_full` field. -/
def string_to_i32 (s : String) : Option Int :=
  parseI32 (strCodes s)

/-- Shape of the strings the spec calls integer-valued: an optional
leading sign followed by one or more digits.  Stated from the spec's
words to compare with `parseI32`. -/
def isNumericLiteral : List Nat → Bool
  | [] => false
  | c :: rest =>
    if c == 43 || c == 45 then !rest.isEmpty && rest.all isDigitCode
    else (c :: rest).all isDigitCode

/-- The integer a sign-and-digits string denotes. -/
def litVal : List Nat → Int
  | [] => 0
  | c :: rest =>
    if c == 45 then -(digitsVal rest : Int)
    else if c == 43 then (digitsVal rest : Int)
    else (digitsVal (c :: rest) : Int)

/-- JSON values, as far as the decoders inspect them. -/
inductive JsonVal where
  | null
  | bool (b : Bool)
  | num (n : Int)
  | str (s : String)
  | arr (elems : List JsonVal)
  | obj (fields : List (String × JsonVal))

/-- `decode_array_to_size` (src/main.rs lines 124-132), the
count-from-array normalizer used for the `alerts` field: `as_array()`
on a non-array is `None` and the `unwrap` panics. -/
def decode_array_to_size (v : JsonVal) : Option Nat :=
  match v with
  | JsonVal.arr l => some l.length
  | _ => none

/-- A canonical timezone database entry as the collector observes it at
its current instant: the zone's IANA identifier (what chrono-tz
`OffsetName::tz_id` returns for the offset) and the offset's
abbreviation (what `OffsetName::abbreviation` would return).  The
chrono-tz `TZ_VARIANTS` table itself is external library data, so the
definitions below are parametrised by a `List Tz`. -/
structure Tz where
  tz_id : String
  abbreviation : String
deriving DecidableEq

/-- The zone selection inside `home_to_influx` (src/main.rs lines
186-193): iterate `TZ_VARIANTS`, keep the zones whose offset `tz_id()`
at the collector's current instant equals the device-reported
`timezone` string, take the first; the `unwrap` on `next()` panics if
none matches. -/
def selectZone (variants : List Tz) (label : String) : Option Tz :=
  (variants.filter (fun t => t.tz_id == label)).head?

/-- The selection the spec describes, stated from the spec's words for
comparison: first zone whose current offset abbreviation equals the
device label. -/
def selectZoneSpec (variants : List Tz) (label : String) : Option Tz :=
  (variants.filter (fun t => t.abbreviation == label)).head?

/-- The decoded `home.json` body (struct `HomeResponse`, src/main.rs
lines 43-110).  `DateTime<Utc>` fields deserialized from
`ts_seconds` are modelled as their epoch-second values; the normalized
fields carry the normalizers' output types. -/
structure HomeResponse where
  software_build_epoch : Int
  current_date : String
  current_time : String
  timezone : String
  db_size : Int
  db_percent_full : Int
  last_enlighten_report_time : Int
  comm_num : Int
  comm_level : Int
  alerts : Nat
  update_status : String
deriving DecidableEq

/-- One decoded inverter record (struct `InvertersResponse`,
src/main.rs lines 25-41). -/
structure InvertersResponse where
  serial_number : String
  last_report_date : Int
  last_report_watts : Int
  max_report_watts : Int
deriving DecidableEq

/-- One emitted influx line: the formatted body without the trailing
collector timestamp, and the collector-side nanosecond timestamp the
`println!` appends. -/
structure MetricLine where
  body : String
  ts : Nat
deriving DecidableEq

/-- `home_to_influx` (src/main.rs lines 167-206).  It reads the clock
once (`now`), prints the build-date, database and phone-home lines,
then resolves the timezone (panic if unresolved), parses the device
clock in that zone (panic on failure, abstracted by `parseLocal`,
chrono's `datetime_from_str` returning epoch nanoseconds), and prints
the skew and comm lines.  The returned flag records whether the
function ran to completion; the list holds the lines printed before
completion or panic, in order. -/
def home_to_influx (variants : List Tz) (parseLocal : Tz → String → Option Int)
    (now : Nat) (home : HomeResponse) : List MetricLine × Bool :=
  let l1 : MetricLine :=
    ⟨"software_build_date value=" ++ toString (home.software_build_epoch * 1000000000), now⟩
  let l2 : MetricLine :=
    ⟨"database total_size=" ++ toString home.db_size ++ ",percent_full="
      ++ toString home.db_percent_full, now⟩
  let l3 : MetricLine :=
    ⟨"phone_home update_status=\"" ++ home.update_status ++ "\",alerts="
      ++ toString home.alerts ++ ",last_report="
      ++ toString (home.last_enlighten_report_time * 1000000000), now⟩
  match selectZone variants home.timezone with
  | none => ([l1, l2, l3], false)
  | some zone =>
    match parseLocal zone (home.current_date ++ " " ++ home.current_time) with
    | none => ([l1, l2, l3], false)
    | some deviceNanos =>
      let l4 : MetricLine :=
        ⟨"device_time_skew device_timestamp=" ++ toString deviceNanos, now⟩
      let l5 : MetricLine :=
        ⟨"comm number=" ++ toString home.comm_num ++ ",level="
          ++ toString home.comm_level, now⟩
      ([l1, l2, l3, l4, l5], true)

/-- `inverters_to_influx` (src/main.rs lines 216-229).  It reads the
clock once — a second `SystemTime::now()` call, separate from the one
in `home_to_influx` — and prints one line per inverter. -/
def inverters_to_influx (now : Nat) (invs : List InvertersResponse) : List MetricLine :=
  invs.map (fun inv =>
    ⟨"inverter,serial_number=\"" ++ inv.serial_number ++ "\" last_report="
      ++ toString (inv.last_report_date * 1000000000) ++ ",last_watts="
      ++ toString inv.last_report_watts ++ ",max_watts="
      ++ toString inv.max_report_watts, now⟩)

/-- Failure modes of `get_auth_header` (src/main.rs lines 231-249):
`expect_err` fires when the probe call succeeds; the header `unwrap`
fires when `WWW-Authenticate` is absent; the `PasswordClient`
`unwrap`s fire on an unparseable or unsupported challenge. -/
inductive AuthError where
  | unexpectedProbeResponse
  | missingChallengeHeader
  | unsupportedScheme
deriving DecidableEq

/-- The HTTP response to the unauthenticated probe of
`/installer/setup/home`: its status code and its `WWW-Authenticate`
header if any. -/
structure ProbeResponse where
  status : Nat
  wwwAuthenticate : Option String
deriving DecidableEq

/-- Standard base64 alphabet. -/
def b64Alphabet : List Char :=
  "ABCDEFGHIJKLMNOPQRSTUVWXYZabcdefghijklmnopqrstuvwxyz0123456789+/".toList

def b64Char (n : Nat) : Char := b64Alphabet.getD n (Char.ofNat 65)

/-- Base64 of a byte sequence, with padding. -/
def b64Encode : List Nat → List Char
  | [] => []
  | [a] => [b64Char (a / 4), b64Char (a % 4 * 16), Char.ofNat 61, Char.ofNat 61]
  | [a, b] => [b64Char (a / 4), b64Char (a % 4 * 16 + b / 16), b64Char (b % 16 * 4), Char.ofNat 61]
  | a :: b :: c :: rest =>
    b64Char (a / 4) :: b64Char (a % 4 * 16 + b / 16) :: b64Char (b % 16 * 4 + c / 64)
      :: b64Char (c % 64) :: b64Encode rest

def base64String (s : String) : String :=
  String.mk (b64Encode (s.toList.map Char.toNat))

/-- Modelled from the spec: the Credential Responder of §4.2 for the
basic scheme — the `http_auth` crate's `PasswordClient`, whose source
is not part of this repository, applied to a `Basic` challenge:
"a basic-style scheme: base64 of username:password".  Challenges it
does not recognise make the caller's `unwrap`s panic. -/
def basicRespond (challenge username password : String) : Option String :=
  if challenge.toList.take 5 == "Basic".toList then
    some ("Basic " ++ base64String (username ++ ":" ++ password))
  else none

/-- Modelled from the spec: the Credential Responder of §4.2 for the
digest scheme — implemented by the external `http_auth` crate, not in
src/: "combine a hash of username:realm:password with the server
nonce, request method, and request URI per the scheme's canonical
construction".  The hash is supplied by the challenge's algorithm
hint, so it is a parameter here. -/
def credentialResponder (hash : String → String)
    (realm nonce method uri username password : String) : String :=
  let ha1 := hash (username ++ ":" ++ realm ++ ":" ++ password)
  let ha2 := hash (method ++ ":" ++ uri)
  let response := hash (ha1 ++ ":" ++ nonce ++ ":" ++ ha2)
  "Digest username=\"" ++ username ++ "\", realm=\"" ++ realm
    ++ "\", nonce=\"" ++ nonce ++ "\", uri=\"" ++ uri
    ++ "\", response=\"" ++ response ++ "\""

/-- `get_auth_header` (src/main.rs lines 231-249).  ureq's `call()`
returns `Ok` for statuses below 400, on which `expect_err` panics with
"Was expecting a 401 error"; for statuses 400 and above it returns the
`Error::Status` response, from which the code reads `WWW-Authenticate`
(`unwrap` panics if absent) and hands it to the responder (the
`http_auth` crate, abstracted as the `respond` parameter; its
`unwrap`ped failures are `unsupportedScheme`).  The status code itself
is never compared against 401. -/
def get_auth_header (respond : String → String → String → Option String)
    (probe : ProbeResponse) (username password : String) : Except AuthError String :=
  if probe.status < 400 then Except.error AuthError.unexpectedProbeResponse
  else
    match probe.wwwAuthenticate with
    | none => Except.error AuthError.missingChallengeHeader
    | some h =>
      match respond h username password with
      | none => Except.error AuthError.unsupportedScheme
      | some tok => Except.ok tok

/-- One invocation's environment: the device's responses and the
collector's successive clock readings (`clock i` is the value of the
i-th `SystemTime::now()` call, in nanoseconds).  `homeResult` /
`invertersResult` are `none` when the fetch or JSON decode of that
endpoint fails (every such failure is an `unwrap` panic). -/
structure FetchEnv where
  probe : ProbeResponse
  responder : String → String → String → Option String
  homeResult : Option HomeResponse
  invertersResult : Option (List InvertersResponse)
  variants : List Tz
  parseLocal : Tz → String → Option Int
  clock : Nat → Nat

/-- `main` (src/main.rs lines 251-264): compute the auth header (abort
on failure), fetch and emit home metrics (abort on failure), fetch and
emit inverter metrics.  Returns the lines printed before completion or
abort, and whether the run completed. -/
def main_run (env : FetchEnv) (username password : String) : List MetricLine × Bool :=
  match get_auth_header env.responder env.probe username password with
  | Except.error _ => ([], false)
  | Except.ok _ =>
    match env.homeResult with
    | none => ([], false)
    | some home =>
      if (home_to_influx env.variants env.parseLocal (env.clock 0) home).2 then
        match env.invertersResult with
        | none => ((home_to_influx env.variants env.parseLocal (env.clock 0) home).1, false)
        | some invs =>
          ((home_to_influx env.variants env.parseLocal (env.clock 0) home).1
            ++ inverters_to_influx (env.clock 1) invs, true)
      else ((home_to_influx env.variants env.parseLocal (env.clock 0) home).1, false)

/-- The sequence of endpoints `main` sends requests to in one run:
the unauthenticated probe always; `home.json` only once the auth
header is computed; the inverters endpoint only once the home metrics
were emitted completely. -/
def requests_issued (env : FetchEnv) (username password : String) : List String :=
  match get_auth_header env.responder env.probe username password with
  | Except.error _ => ["probe"]
  | Except.ok _ =>
    match env.homeResult with
    | none => ["probe", "home.json"]
    | some home =>
      if (home_to_influx env.variants env.parseLocal (env.clock 0) home).2 then
        ["probe", "home.json", "inverters"]
      else ["probe", "home.json"]

/-- Sample decoded home response, the end-to-end example of §8. -/
def home0 : HomeResponse :=
  ⟨1234567890, "01/01/2023", "01:00", "America/New_York", 12582912, 1,
    1234567890, 1, 1, 0, "satisfied"⟩

/-- The America/New_York entry as observed in winter: identifier
`America/New_York`, current abbreviation `EST`. -/
def tzNY : Tz := ⟨"America/New_York", "EST"⟩

/-- Sample inverter record, the end-to-end example of §8. -/
def inv0 : InvertersResponse := ⟨"123456789012", 1688000000, 123, 234⟩

def probe401 : ProbeResponse := ⟨401, some "Basic realm=x"⟩

def probe404 : ProbeResponse := ⟨404, some "Basic realm=x"⟩

def probe200 : ProbeResponse := ⟨200, none⟩

/-- An environment in which every step succeeds; the clock readings
are 0, 1, 2, ... so the two `SystemTime::now()` calls differ. -/
def envFull : FetchEnv :=
  ⟨probe401, basicRespond, some home0, some [inv0], [tzNY],
    fun _ _ => some 1672549200000000000, fun n => n⟩

/-- Same device data, but the canonical zone list resolves nothing, so
the timezone lookup panics mid-emission. -/
def envPartial : FetchEnv :=
  ⟨probe401, basicRespond, some home0, some [inv0], [],
    fun _ _ => some 1672549200000000000, fun n => n⟩

/-- Probe answered 404 (with a challenge header), everything else as in
`envFull`. -/
def env404 : FetchEnv :=
  ⟨probe404, basicRespond, some home0, some [inv0], [tzNY],
    fun _ _ => some 1672549200000000000, fun n => n⟩

/-- Probe answered 200, everything else as in `envFull`. -/
def env200 : FetchEnv :=
  ⟨probe200, basicRespond, some home0, some [inv0], [tzNY],
    fun _ _ => some 1672549200000000000, fun n => n⟩

theorem splitKeep_ne_nil (ns : List Nat) : splitKeep ns ≠ [] := by
  induction ns with
  | nil => simp [splitKeep]
  | cons c cs ih =>
    cases hw : isWsCode c
    · simp only [splitKeep, hw, Bool.false_eq_true, if_false]
      split
      · simp
      · simp
    · simp [splitKeep, hw]

theorem splitKeep_append (ns rest t : List Nat) (ts : List (List Nat))
    (h : ∀ n ∈ ns, isWsCode n = false) (hrest : splitKeep rest = t :: ts) :
    splitKeep (ns ++ rest) = (ns ++ t) :: ts := by
  induction ns with
  | nil => simpa using hrest
  | cons c cs ih =>
    have hc : isWsCode c = false := h c (by simp)
    have ih2 := ih (fun n hn => h n (by simp [hn]))
    simp only [List.cons_append, splitKeep, hc, Bool.false_eq_true, if_false,
      List.append_eq, ih2]

theorem splitKeep_nonws (ns : List Nat) (h : ∀ n ∈ ns, isWsCode n = false) :
    splitKeep ns = [ns] := by
  have := splitKeep_append ns [] [] [] h (by simp [splitKeep])
  simpa using this

theorem isEmpty_false_of_ne_nil (ns : List Nat) (h : ns ≠ []) : ns.isEmpty = false := by
  cases ns
  · exact absurd rfl h
  · rfl

theorem splitWs_nonws (ns : List Nat) (hne : ns ≠ [])
    (h : ∀ n ∈ ns, isWsCode n = false) : splitWs ns = [ns] := by
  simp [splitWs, splitKeep_nonws ns h, isEmpty_false_of_ne_nil ns hne]

theorem splitWs_pair (ns us : List Nat) (hns : ns ≠ [])
    (h1 : ∀ n ∈ ns, isWsCode n = false) (hus : us ≠ [])
    (h2 : ∀ n ∈ us, isWsCode n = false) :
    splitWs (ns ++ 32 :: us) = [ns, us] := by
  have hkus : splitKeep us = [us] := splitKeep_nonws us h2
  have hk32 : splitKeep (32 :: us) = [] :: [us] := by
    simp [splitKeep, hkus, isWsCode]
  have hk2 : splitKeep (ns ++ 32 :: us) = [ns, us] := by
    have := splitKeep_append ns (32 :: us) [] [us] h1 hk32
    simpa using this
  simp [splitWs, hk2, isEmpty_false_of_ne_nil ns hns, isEmpty_false_of_ne_nil us hus]

theorem digit_bounds (n : Nat) (h : isDigitCode n = true) : 48 ≤ n ∧ n ≤ 57 := by
  simpa [isDigitCode] using h

theorem digit_not_ws (n : Nat) (h : isDigitCode n = true) : isWsCode n = false := by
  have := digit_bounds n h
  simp [isWsCode]
  omega

theorem upper_unit_not_ws (n m : Nat) (h : upperCode n = m)
    (hm : 60 ≤ m ∧ m ≤ 90) : isWsCode n = false := by
  unfold upperCode at h
  simp [isWsCode]
  split at h <;> omega

theorem parseI32_digits (ns : List Nat) (hne : ns ≠ [])
    (hd : ∀ n ∈ ns, isDigitCode n = true) (hb : digitsVal ns ≤ 2 ^ 31 - 1) :
    parseI32 ns = some ((digitsVal ns : Int)) := by
  obtain ⟨c, rest, rfl⟩ : ∃ c rest, ns = c :: rest := by
    cases ns
    · exact absurd rfl hne
    · exact ⟨_, _, rfl⟩
  have hc := digit_bounds c (hd c (by simp))
  have h43 : (c == 43) = false := by simp; omega
  have h45 : (c == 45) = false := by simp; omega
  have hall : (c :: rest).all isDigitCode = true := List.all_eq_true.mpr hd
  have hv0 : (0 : Int) ≤ (digitsVal (c :: rest) : Int) := Int.natCast_nonneg _
  have hv1 : ((digitsVal (c :: rest) : Int)) ≤ 2 ^ 31 - 1 := by omega
  simp only [parseI32, h43, h45, Bool.false_eq_true, if_false, parseDigits,
    List.isEmpty_cons, hall, if_true, one_mul]
  rw [if_pos ⟨by omega, hv1⟩]

theorem i32wrap_small (x : Int) (h0 : 0 ≤ x) (h1 : x ≤ 2 ^ 31 - 1) :
    i32wrap x = x := by
  unfold i32wrap
  omega

theorem i32wrap_natCast (a : Nat) : i32wrap (a : Int) = toSigned32 a := by
  unfold i32wrap toSigned32
  split <;> push_cast <;> omega

theorem wrap_cast_eq (a m : Nat) (h : a * m ≤ 2 ^ 31 - 1) :
    i32wrap ((a : Int) * ((m : Nat) : Int)) = ((a * m : Nat) : Int) := by
  have e : ((a : Int) * ((m : Nat) : Int)) = ((a * m : Nat) : Int) := by push_cast; ring
  rw [e]
  exact i32wrap_small _ (Int.natCast_nonneg _) (by omega)

theorem decode_core_eq (ns us : List Nat) (hne : ns ≠ [])
    (hd : ∀ n ∈ ns, isDigitCode n = true) (hus : us ≠ [])
    (hw : ∀ n ∈ us, isWsCode n = false) (hb : digitsVal ns ≤ 2 ^ 31 - 1) :
    decode_memory_core (ns ++ 32 :: us)
      = some (i32wrap ((digitsVal ns : Int) * unitMult (us.map upperCode))) := by
  have hnsw : ∀ n ∈ ns, isWsCode n = false := fun n hn => digit_not_ws n (hd n hn)
  have hsplit := splitWs_pair ns us hne hnsw hus hw
  have hparse := parseI32_digits ns hne hd hb
  simp only [decode_memory_core, hsplit, hparse]

theorem decode_core_single (ns : List Nat) (hne : ns ≠ [])
    (hw : ∀ n ∈ ns, isWsCode n = false) : decode_memory_core ns = none := by
  have hs := splitWs_nonws ns hne hw
  rcases hp : parseI32 ns with _ | v <;> simp only [decode_memory_core, hs, hp]

theorem unit_ws_of_map (u : List Char) (L : List Nat) (hLne : L ≠ [])
    (hLb : ∀ m ∈ L, 60 ≤ m ∧ m ≤ 90)
    (hmap : u.map (fun c => upperCode c.toNat) = L) :
    u ≠ [] ∧ ∀ c ∈ u, isWsCode c.toNat = false := by
  constructor
  · intro h
    subst h
    exact hLne hmap.symm
  · intro c hc
    have hmem : upperCode c.toNat ∈ L := by
      rw [← hmap]
      exact List.mem_map_of_mem _ hc
    exact upper_unit_not_ws c.toNat _ rfl (hLb _ hmem)

theorem decode_scaled (ds u : List Char) (mult : Nat) (hmpos : 0 < mult)
    (h1 : ds ≠ []) (h2 : ∀ c ∈ ds, isDigitCode c.toNat = true)
    (hws : ∀ c ∈ u, isWsCode c.toNat = false) (hune : u ≠ [])
    (hmult : unitMult (u.map (fun c => upperCode c.toNat)) = ((mult : Nat) : Int))
    (h4 : decimalValue ds * mult ≤ 2 ^ 31 - 1) :
    decode_memory_string (String.mk ds ++ " " ++ String.mk u)
      = some (((decimalValue ds * mult : Nat) : Int)) := by
  simp only [decimalValue] at h4 ⊢
  have hstr : strCodes (String.mk ds ++ " " ++ String.mk u)
      = ds.map Char.toNat ++ 32 :: u.map Char.toNat := by
    have e1 : strCodes (String.mk ds ++ " " ++ String.mk u)
        = (ds ++ " ".toList ++ u).map Char.toNat := rfl
    have h32 : " ".toList.map Char.toNat = [32] := by decide
    rw [e1, List.append_assoc, List.map_append, List.map_append, h32]
    rfl
  have hne : ds.map Char.toNat ≠ [] := by simpa using h1
  have hdig : ∀ n ∈ ds.map Char.toNat, isDigitCode n = true := by
    intro n hn
    obtain ⟨c, hc, rfl⟩ := List.mem_map.mp hn
    exact h2 c hc
  have husne : u.map Char.toNat ≠ [] := by simpa using hune
  have hwus : ∀ n ∈ u.map Char.toNat, isWsCode n = false := by
    intro n hn
    obtain ⟨c, hc, rfl⟩ := List.mem_map.mp hn
    exact hws c hc
  have hbound : digitsVal (ds.map Char.toNat) ≤ 2 ^ 31 - 1 :=
    le_trans (le_mul_of_one_le_right (Nat.zero_le _) hmpos) h4
  have key := decode_core_eq (ds.map Char.toNat) (u.map Char.toNat)
    hne hdig husne hwus hbound
  have hmm : (u.map Char.toNat).map upperCode = u.map (fun c => upperCode c.toNat) := by
    rw [List.map_map]
    rfl
  have e0 : decode_memory_string (String.mk ds ++ " " ++ String.mk u)
      = decode_memory_core (strCodes (String.mk ds ++ " " ++ String.mk u)) := rfl
  rw [e0, hstr, key, hmm, hmult, wrap_cast_eq _ _ h4]

/-- Claim C1, counterexample: the input `2 GB` denotes `2 × 1024³ =
2³¹` bytes, but `decode_memory_string` computes it in wrapping `i32`
arithmetic and returns `-2147483648` instead of the mathematical byte
count. -/
theorem c1_overflow_counterexample :
    decode_memory_string "2 GB" = some (-2147483648) ∧
    (-2147483648 : Int) ≠ 2 * 1024 ^ 3 := by
  exact ⟨by decide, by decide⟩

/-- Claim C1, amended: for every input `N UNIT` with `N` a digit
string and `UNIT` any case variant of `B`, `KB`, `MB`, `GB`
(uppercased scalar values 66; 75 66; 77 66; 71 66), the size
normalizer returns `N × 1024^k` for the corresponding
`k ∈ {0, 1, 2, 3}` — provided the product fits in the `i32` range
(`N × 1024^k ≤ 2³¹ − 1`); beyond that the arithmetic wraps. -/
theorem c1_size_normalizer_scales (ds u : List Char) (k : Nat)
    (h1 : ds ≠ []) (h2 : ∀ c ∈ ds, isDigitCode c.toNat = true)
    (h3 : (k = 0 ∧ u.map (fun c => upperCode c.toNat) = strCodes "B")
        ∨ (k = 1 ∧ u.map (fun c => upperCode c.toNat) = strCodes "KB")
        ∨ (k = 2 ∧ u.map (fun c => upperCode c.toNat) = strCodes "MB")
        ∨ (k = 3 ∧ u.map (fun c => upperCode c.toNat) = strCodes "GB"))
    (h4 : decimalValue ds * 1024 ^ k ≤ 2 ^ 31 - 1) :
    decode_memory_string (String.mk ds ++ " " ++ String.mk u)
      = some (((decimalValue ds * 1024 ^ k : Nat) : Int)) := by
  rcases h3 with ⟨rfl, hmap⟩ | ⟨rfl, hmap⟩ | ⟨rfl, hmap⟩ | ⟨rfl, hmap⟩
  · obtain ⟨hune, hws⟩ := unit_ws_of_map u (strCodes "B") (by decide) (by decide) hmap
    exact decode_scaled ds u (1024 ^ 0) (by decide) h1 h2 hws hune
      (by rw [hmap]; decide) h4
  · obtain ⟨hune, hws⟩ := unit_ws_of_map u (strCodes "KB") (by decide) (by decide) hmap
    exact decode_scaled ds u (1024 ^ 1) (by decide) h1 h2 hws hune
      (by rw [hmap]; decide) h4
  · obtain ⟨hune, hws⟩ := unit_ws_of_map u (strCodes "MB") (by decide) (by decide) hmap
    exact decode_scaled ds u (1024 ^ 2) (by decide) h1 h2 hws hune
      (by rw [hmap]; decide) h4
  · obtain ⟨hune, hws⟩ := unit_ws_of_map u (strCodes "GB") (by decide) (by decide) hmap
    exact decode_scaled ds u (1024 ^ 3) (by decide) h1 h2 hws hune
      (by rw [hmap]; decide) h4

/-- Claim C1, witness: `12 mb` (lower-case unit) decodes to
`12 × 1024² = 12582912`. -/
theorem c1_witness : decode_memory_string "12 mb" = some 12582912 := by
  have h := c1_size_normalizer_scales "12".toList "mb".toList 2 (by decide) (by decide)
    (Or.inr (Or.inr (Or.inl ⟨rfl, by decide⟩))) (by decide)
  exact h

/-- Claim C10: on a `N GB` input with `N` a digit string that parses
as `i32`, the normalizer computes `N × 2³⁰` in wrapping signed 32-bit
arithmetic: the result is `N × 2³⁰` reduced modulo `2³²` and read back
as a signed 32-bit value. -/
theorem c10_gb_wraps (ds : List Char) (h1 : ds ≠ [])
    (h2 : ∀ c ∈ ds, isDigitCode c.toNat = true)
    (h3 : decimalValue ds ≤ 2 ^ 31 - 1) :
    decode_memory_string (String.mk ds ++ " GB")
      = some (toSigned32 (decimalValue ds * 2 ^ 30)) := by
  simp only [decimalValue] at h3 ⊢
  have hstr : strCodes (String.mk ds ++ " GB")
      = ds.map Char.toNat ++ 32 :: [71, 66] := by
    have e1 : strCodes (String.mk ds ++ " GB") = (ds ++ " GB".toList).map Char.toNat := rfl
    have hgb : " GB".toList.map Char.toNat = [32, 71, 66] := by decide
    rw [e1, List.map_append, hgb]
  have hne : ds.map Char.toNat ≠ [] := by simpa using h1
  have hdig : ∀ n ∈ ds.map Char.toNat, isDigitCode n = true := by
    intro n hn
    obtain ⟨c, hc, rfl⟩ := List.mem_map.mp hn
    exact h2 c hc
  have key := decode_core_eq (ds.map Char.toNat) [71, 66]
    hne hdig (by decide) (by decide) h3
  have hmult : unitMult ([71, 66].map upperCode) = ((2 ^ 30 : Nat) : Int) := by decide
  have e0 : decode_memory_string (String.mk ds ++ " GB")
      = decode_memory_core (strCodes (String.mk ds ++ " GB")) := rfl
  have ecast : ((digitsVal (ds.map Char.toNat) : Int) * ((2 ^ 30 : Nat) : Int))
      = (((digitsVal (ds.map Char.toNat) * 2 ^ 30 : Nat)) : Int) := by
    push_cast
    ring
  rw [e0, hstr, key, hmult, ecast, i32wrap_natCast]

/-- Claim C10, witness: `2 GB` wraps to `-2147483648`, which is not
the mathematical byte count `2 × 1024³`. -/
theorem c10_witness :
    decode_memory_string "2 GB" = some (toSigned32 (2 * 2 ^ 30)) ∧
    toSigned32 (2 * 2 ^ 30) = -2147483648 ∧
    toSigned32 (2 * 2 ^ 30) ≠ ((2 * 2 ^ 30 : Nat) : Int) := by
  refine ⟨?_, by decide, by decide⟩
  exact c10_gb_wraps "2".toList (by decide) (by decide) (by decide)

/-- Claim C3, counterexample: on the input `5` the unit token is
missing; the claim says the parsed number is returned unscaled
(`some 5`), but the source `unwrap`s the absent second token and
panics, so nothing is returned. -/
theorem c3_missing_unit_counterexample :
    decode_memory_string "5" = none ∧ decode_memory_string "5" ≠ some 5 := by
  exact ⟨by decide, by decide⟩

/-- Claim C3, amended: an unknown unit token after the numeric portion
yields the parsed number unscaled, but a missing unit token is a
failure (the `unwrap` of the second token panics), as is a malformed
numeric portion. -/
theorem c3_unit_leniency :
    (∀ ds u : List Char, ds ≠ [] → (∀ c ∈ ds, isDigitCode c.toNat = true) →
      decimalValue ds ≤ 2 ^ 31 - 1 → u ≠ [] →
      (∀ c ∈ u, isWsCode c.toNat = false) →
      u.map (fun c => upperCode c.toNat) ≠ strCodes "MB" →
      u.map (fun c => upperCode c.toNat) ≠ strCodes "GB" →
      u.map (fun c => upperCode c.toNat) ≠ strCodes "KB" →
      decode_memory_string (String.mk ds ++ " " ++ String.mk u)
        = some ((decimalValue ds : Int))) ∧
    (∀ cs : List Char, cs ≠ [] → (∀ c ∈ cs, isWsCode c.toNat = false) →
      decode_memory_string (String.mk cs) = none) ∧
    (∀ (cs : List Char) (numTok : List Nat) (rest : List (List Nat)),
      splitWs (strCodes (String.mk cs)) = numTok :: rest → parseI32 numTok = none →
      decode_memory_string (String.mk cs) = none) := by
  refine ⟨?_, ?_, ?_⟩
  · intro ds u h1 h2 h3 hune hws hMB hGB hKB
    have b1 : ((u.map (fun c => upperCode c.toNat)) == strCodes "MB") = false := by
      simpa using hMB
    have b2 : ((u.map (fun c => upperCode c.toNat)) == strCodes "GB") = false := by
      simpa using hGB
    have b3 : ((u.map (fun c => upperCode c.toNat)) == strCodes "KB") = false := by
      simpa using hKB
    have hmult : unitMult (u.map (fun c => upperCode c.toNat)) = ((1 : Nat) : Int) := by
      simp only [unitMult, b1, b2, b3, Bool.false_eq_true, if_false]
      rfl
    have h := decode_scaled ds u 1 (by decide) h1 h2 hws hune hmult (by simpa using h3)
    simpa using h
  · intro cs hne hws
    have e0 : decode_memory_string (String.mk cs) = decode_memory_core (cs.map Char.toNat) := rfl
    rw [e0]
    apply decode_core_single
    · simpa using hne
    · intro n hn
      obtain ⟨c, hc, rfl⟩ := List.mem_map.mp hn
      exact hws c hc
  · intro cs numTok rest hsplit hparse
    have e0 : decode_memory_string (String.mk cs)
        = decode_memory_core (strCodes (String.mk cs)) := rfl
    rw [e0]
    simp only [decode_memory_core, hsplit, hparse]

/-- Claim C3, witness: `5 XB` has an unknown unit and decodes
unscaled; `5` has a missing unit and fails; `x KB` has a malformed
numeric portion and fails. -/
theorem c3_witness :
    decode_memory_string "5 XB" = some 5 ∧ decode_memory_string "5" = none ∧
    decode_memory_string "x KB" = none := by
  refine ⟨?_, ?_, ?_⟩
  · have h := c3_unit_leniency.1 "5".toList "XB".toList (by decide) (by decide)
      (by decide) (by decide) (by decide) (by decide) (by decide) (by decide)
    exact h
  · exact c3_unit_leniency.2.1 "5".toList (by decide) (by decide)
  · exact c3_unit_leniency.2.2 "x KB".toList [120] [[75, 66]] (by decide) (by decide)

theorem parseI32_sign_digits (sign : Int) (rest : List Nat) (hne : rest ≠ [])
    (hall : ∀ x ∈ rest, isDigitCode x = true)
    (hlo : -(2 ^ 31) ≤ sign * (digitsVal rest : Int))
    (hhi : sign * (digitsVal rest : Int) ≤ 2 ^ 31 - 1) :
    parseDigits sign rest = some (sign * (digitsVal rest : Int)) := by
  have hie : rest.isEmpty = false := isEmpty_false_of_ne_nil rest hne
  have hallEq : rest.all isDigitCode = true := List.all_eq_true.mpr hall
  simp only [parseDigits, hie, hallEq, Bool.false_eq_true, if_false, if_true]
  rw [if_pos ⟨hlo, hhi⟩]

theorem parseDigits_bad (sign : Int) (rest : List Nat)
    (h : rest.isEmpty = true ∨ rest.all isDigitCode = false) :
    parseDigits sign rest = none := by
  rcases h with h | h
  · simp only [parseDigits, h, if_true]
  · have hie : rest.isEmpty = true ∨ rest.isEmpty = false := by
      cases rest.isEmpty
      · exact Or.inr rfl
      · exact Or.inl rfl
    rcases hie with hie | hie
    · simp only [parseDigits, hie, if_true]
    · simp only [parseDigits, hie, h, Bool.false_eq_true, if_false]

theorem parseI32_literal (ns : List Nat) :
    (isNumericLiteral ns = true → -(2 ^ 31) ≤ litVal ns → litVal ns ≤ 2 ^ 31 - 1 →
      parseI32 ns = some (litVal ns)) ∧
    (isNumericLiteral ns = false → parseI32 ns = none) := by
  have e4343 : ((43 : Nat) == 43) = true := rfl
  have e4345 : ((43 : Nat) == 45) = false := rfl
  have e4543 : ((45 : Nat) == 43) = false := rfl
  have e4545 : ((45 : Nat) == 45) = true := rfl
  cases ns with
  | nil =>
    constructor
    · intro h
      simp [isNumericLiteral] at h
    · intro _
      rfl
  | cons c rest =>
    by_cases h43 : c = 43
    · subst h43
      have elit : litVal (43 :: rest) = (digitsVal rest : Int) := by
        simp only [litVal, e4345, e4343, Bool.false_eq_true, if_false, if_true]
      constructor
      · intro h hlo hhi
        rw [elit] at hlo hhi
        simp only [isNumericLiteral, e4343, Bool.true_or, if_true,
          Bool.and_eq_true, Bool.not_eq_true'] at h
        obtain ⟨hie, hall⟩ := h
        have hne : rest ≠ [] := by
          intro he
          rw [he] at hie
          exact absurd hie (by decide)
        rw [elit]
        have := parseI32_sign_digits 1 rest hne (List.all_eq_true.mp hall)
          (by rw [one_mul]; exact hlo) (by rw [one_mul]; exact hhi)
        simp only [parseI32, e4343, if_true, this, one_mul]
      · intro h
        simp only [isNumericLiteral, e4343, Bool.true_or, if_true,
          Bool.and_eq_false_iff, Bool.not_eq_false'] at h
        simp only [parseI32, e4343, if_true]
        exact parseDigits_bad 1 rest h
    · by_cases h45 : c = 45
      · subst h45
        have elit : litVal (45 :: rest) = -(digitsVal rest : Int) := by
          simp only [litVal, e4545, if_true]
        constructor
        · intro h hlo hhi
          rw [elit] at hlo hhi
          simp only [isNumericLiteral, e4545, Bool.or_true, if_true,
            Bool.and_eq_true, Bool.not_eq_true'] at h
          obtain ⟨hie, hall⟩ := h
          have hne : rest ≠ [] := by
            intro he
            rw [he] at hie
            exact absurd hie (by decide)
          rw [elit]
          have := parseI32_sign_digits (-1) rest hne (List.all_eq_true.mp hall)
            (by rw [neg_one_mul]; exact hlo) (by rw [neg_one_mul]; exact hhi)
          simp only [parseI32, e4543, Bool.false_eq_true, if_false, e4545, if_true, this,
            neg_one_mul]
        · intro h
          simp only [isNumericLiteral, e4545, Bool.or_true, if_true,
            Bool.and_eq_false_iff, Bool.not_eq_false'] at h
          simp only [parseI32, e4543, Bool.false_eq_true, if_false, e4545, if_true]
          exact parseDigits_bad (-1) rest h
      · have b43 : (c == 43) = false := by simpa using h43
        have b45 : (c == 45) = false := by simpa using h45
        have elit : litVal (c :: rest) = (digitsVal (c :: rest) : Int) := by
          simp only [litVal, b43, b45, Bool.false_eq_true, if_false]
        constructor
        · intro h hlo hhi
          rw [elit] at hlo hhi
          simp only [isNumericLiteral, b43, b45, Bool.or_self, Bool.false_eq_true,
            if_false] at h
          rw [elit]
          have hne : c :: rest ≠ [] := by simp
          have := parseI32_sign_digits 1 (c :: rest) hne (List.all_eq_true.mp h)
            (by rw [one_mul]; exact hlo) (by rw [one_mul]; exact hhi)
          simp only [parseI32, b43, b45, Bool.false_eq_true, if_false, this, one_mul]
        · intro h
          simp only [isNumericLiteral, b43, b45, Bool.or_self, Bool.false_eq_true,
            if_false] at h
          simp only [parseI32, b43, b45, Bool.false_eq_true, if_false]
          exact parseDigits_bad 1 (c :: rest) (Or.inr h)

/-- Claim C5, counterexample: `2147483648` consists only of digits,
but its value exceeds `i32::MAX`, so `parse::<i32>` returns `Err` and
the `unwrap` panics instead of round-tripping the value. -/
theorem c5_overflow_counterexample :
    isNumericLiteral (strCodes "2147483648") = true ∧
    string_to_i32 "2147483648" = none ∧
    string_to_i32 "2147483648" ≠ some 2147483648 := by
  exact ⟨by decide, by decide, by decide⟩

/-- Claim C5, amended: every sign-and-digits string whose denoted
value lies within the `i32` range round-trips through `string_to_i32`
to that value; strings that are not of that shape fail (as do
in-shape strings whose value overflows `i32`). -/
theorem c5_roundtrip :
    (∀ cs : List Char, isNumericLiteral (strCodes (String.mk cs)) = true →
      -(2 ^ 31) ≤ litVal (strCodes (String.mk cs)) →
      litVal (strCodes (String.mk cs)) ≤ 2 ^ 31 - 1 →
      string_to_i32 (String.mk cs) = some (litVal (strCodes (String.mk cs)))) ∧
    (∀ cs : List Char, isNumericLiteral (strCodes (String.mk cs)) = false →
      string_to_i32 (String.mk cs) = none) := by
  constructor
  · intro cs h hlo hhi
    exact (parseI32_literal (strCodes (String.mk cs))).1 h hlo hhi
  · intro cs h
    exact (parseI32_literal (strCodes (String.mk cs))).2 h

/-- Claim C5, witness: `-7` round-trips to `-7`; `12a` is rejected. -/
theorem c5_witness :
    string_to_i32 "-7" = some (-7) ∧ string_to_i32 "12a" = none := by
  constructor
  · exact c5_roundtrip.1 "-7".toList (by decide) (by decide) (by decide)
  · exact c5_roundtrip.2 "12a".toList (by decide)

/-- Claim C6: the count-from-array normalizer returns the array's
length for every JSON array, and the result depends only on that
length, never on the elements themselves. -/
theorem c6_array_count :
    (∀ l : List JsonVal, decode_array_to_size (JsonVal.arr l) = some l.length) ∧
    (∀ l m : List JsonVal, l.length = m.length →
      decode_array_to_size (JsonVal.arr l) = decode_array_to_size (JsonVal.arr m)) := by
  constructor
  · intro l
    rfl
  · intro l m h
    simp [decode_array_to_size, h]

/-- Claim C6, witness: `[]` counts 0, `[1,2,3]` counts 3, and a
same-length array of different element types counts the same. -/
theorem c6_witness :
    decode_array_to_size (JsonVal.arr []) = some 0 ∧
    decode_array_to_size (JsonVal.arr [JsonVal.num 1, JsonVal.num 2, JsonVal.num 3]) = some 3 ∧
    decode_array_to_size (JsonVal.arr [JsonVal.num 1, JsonVal.num 2, JsonVal.num 3])
      = decode_array_to_size (JsonVal.arr [JsonVal.str "a", JsonVal.null, JsonVal.bool true]) := by
  exact ⟨c6_array_count.1 [], c6_array_count.1 _, c6_array_count.2 _ _ rfl⟩

theorem selectZone_cons (a : Tz) (l : List Tz) (label : String) :
    selectZone (a :: l) label
      = if a.tz_id = label then some a else selectZone l label := by
  by_cases h : a.tz_id = label
  · simp [selectZone, List.filter_cons, h]
  · simp [selectZone, List.filter_cons, h]

/-- Claim C2, counterexample: a zone list containing only the
America/New_York entry, whose current abbreviation is `EST`: for the
device label `EST` the claim requires that zone to be selected, but
the code compares the label against the zone identifier (`tz_id`), so
the selection fails; the spec's algorithm (`selectZoneSpec`) would
have selected it. -/
theorem c2_abbreviation_counterexample :
    tzNY.abbreviation = "EST" ∧ selectZone [tzNY] "EST" = none ∧
    selectZoneSpec [tzNY] "EST" = some tzNY := by
  exact ⟨rfl, by decide, by decide⟩

/-- Claim C2, amended: the reconciler selects the first zone, in the
database's fixed iteration order, whose timezone identifier (`tz_id`,
e.g. `America/New_York`) — not its current offset abbreviation —
equals the device-reported label; if no zone's identifier equals the
label, the selection fails (the `unwrap` panic behind
`TimezoneNotResolved`). -/
theorem c2_selection_by_tz_id (variants : List Tz) (label : String) :
    (selectZone variants label = none ↔ ∀ z ∈ variants, z.tz_id ≠ label) ∧
    (∀ z : Tz, selectZone variants label = some z →
      z.tz_id = label ∧ ∃ pre post, variants = pre ++ z :: post ∧
        ∀ y ∈ pre, y.tz_id ≠ label) := by
  induction variants with
  | nil =>
    constructor
    · simp [selectZone]
    · intro z h
      simp [selectZone] at h
  | cons a l ih =>
    by_cases ha : a.tz_id = label
    · constructor
      · constructor
        · intro h
          rw [selectZone_cons, if_pos ha] at h
          exact absurd h (by simp)
        · intro h
          exact absurd ha (h a (by simp))
      · intro z hz
        rw [selectZone_cons, if_pos ha] at hz
        have hz' : a = z := by injection hz
        subst hz'
        exact ⟨ha, [], l, rfl, by simp⟩
    · constructor
      · rw [selectZone_cons, if_neg ha, ih.1]
        constructor
        · intro h z hz
          rcases List.mem_cons.mp hz with rfl | hz'
          · exact ha
          · exact h z hz'
        · intro h z hz
          exact h z (List.mem_cons_of_mem _ hz)
      · intro z hz
        rw [selectZone_cons, if_neg ha] at hz
        obtain ⟨hid, pre, post, heq, hpre⟩ := ih.2 z hz
        refine ⟨hid, a :: pre, post, ?_, ?_⟩
        · rw [List.cons_append, heq]
        · intro y hy
          rcases List.mem_cons.mp hy with rfl | hy'
          · exact ha
          · exact hpre y hy'

/-- Claim C2, witness: with the label `America/New_York` the same
entry is selected, by identifier, as the first match. -/
theorem c2_witness :
    tzNY.tz_id = "America/New_York" ∧
    ∃ pre post, [tzNY] = pre ++ tzNY :: post ∧
      ∀ y ∈ pre, y.tz_id ≠ "America/New_York" := by
  exact (c2_selection_by_tz_id [tzNY] "America/New_York").2 tzNY (by decide)

/-- Claim C4, amended: if the probe request succeeds (any status below
400, e.g. 200), the program fails with `UnexpectedProbeResponse` and
issues no request beyond the probe; however, error statuses other
than 401 are not distinguished from 401 — the code never inspects the
status code, so e.g. a 404 carrying a challenge header proceeds. -/
theorem c4_probe_success_fatal (env : FetchEnv) (u p : String)
    (h : env.probe.status < 400) :
    get_auth_header env.responder env.probe u p
      = Except.error AuthError.unexpectedProbeResponse ∧
    requests_issued env u p = ["probe"] := by
  have hga : get_auth_header env.responder env.probe u p
      = Except.error AuthError.unexpectedProbeResponse := by
    unfold get_auth_header
    rw [if_pos h]
  refine ⟨hga, ?_⟩
  unfold requests_issued
  rw [hga]

/-- Claim C4, counterexample: the probe answers 404 — a status other
than 401 — with a challenge header; the claim requires a fatal
`UnexpectedProbeResponse` with no further requests, but the program
computes an auth header and goes on to request both data endpoints. -/
theorem c4_non401_counterexample :
    probe404.status ≠ 401 ∧
    get_auth_header env404.responder env404.probe "u" "p" = Except.ok "Basic dTpw" ∧
    requests_issued env404 "u" "p" = ["probe", "home.json", "inverters"] := by
  refine ⟨by decide, rfl, by decide⟩

/-- Claim C4, witness: probe status 200 aborts after the probe. -/
theorem c4_witness : requests_issued env200 "u" "p" = ["probe"] :=
  (c4_probe_success_fatal env200 "u" "p" (by decide)).2

theorem hti_false_length (v : List Tz) (pl : Tz → String → Option Int) (now : Nat)
    (h : HomeResponse) (hf : (home_to_influx v pl now h).2 = false) :
    (home_to_influx v pl now h).1.length = 3 := by
  rcases hz : selectZone v h.timezone with _ | z
  · simp [home_to_influx, hz]
  · rcases hp : pl z (h.current_date ++ " " ++ h.current_time) with _ | t
    · simp [home_to_influx, hz, hp]
    · exfalso
      simp [home_to_influx, hz, hp] at hf

theorem hti_true_length (v : List Tz) (pl : Tz → String → Option Int) (now : Nat)
    (h : HomeResponse) (ht : (home_to_influx v pl now h).2 = true) :
    (home_to_influx v pl now h).1.length = 5 := by
  rcases hz : selectZone v h.timezone with _ | z
  · exfalso
    simp [home_to_influx, hz] at ht
  · rcases hp : pl z (h.current_date ++ " " ++ h.current_time) with _ | t
    · exfalso
      simp [home_to_influx, hz, hp] at ht
    · simp [home_to_influx, hz, hp]

/-- Claim C7, amended: emission is not atomic but incremental in a
fixed order.  When the run completes, exactly the full cycle is
emitted (5 system-status lines plus one line per inverter); when the
home pipeline fails after the timezone step, exactly the 3 lines
printed before that step have been emitted; when only the inverter
fetch fails, all 5 system-status lines have been emitted and no
inverter line. -/
theorem c7_emission_structure :
    (∀ (env : FetchEnv) (u p : String) (home : HomeResponse)
      (invs : List InvertersResponse),
      env.homeResult = some home → env.invertersResult = some invs →
      (main_run env u p).2 = true →
      (main_run env u p).1.length = 5 + invs.length) ∧
    (∀ (env : FetchEnv) (u p : String) (home : HomeResponse) (tok : String),
      get_auth_header env.responder env.probe u p = Except.ok tok →
      env.homeResult = some home →
      (home_to_influx env.variants env.parseLocal (env.clock 0) home).2 = false →
      (main_run env u p).1.length = 3) ∧
    (∀ (env : FetchEnv) (u p : String) (home : HomeResponse) (tok : String),
      get_auth_header env.responder env.probe u p = Except.ok tok →
      env.homeResult = some home →
      (home_to_influx env.variants env.parseLocal (env.clock 0) home).2 = true →
      env.invertersResult = none →
      (main_run env u p).1.length = 5) := by
  refine ⟨?_, ?_, ?_⟩
  · intro env u p home invs hh hi hs
    rcases hga : get_auth_header env.responder env.probe u p with e | tok
    · simp [main_run, hga] at hs
    · rcases hok : (home_to_influx env.variants env.parseLocal (env.clock 0) home).2
      · simp [main_run, hga, hh, hok] at hs
      · simp only [main_run, hga, hh, hok, hi, if_true]
        simp [List.length_append, inverters_to_influx,
          hti_true_length env.variants env.parseLocal (env.clock 0) home hok]
  · intro env u p home tok hga hh hf
    simp only [main_run, hga, hh, hf, Bool.false_eq_true, if_false]
    exact hti_false_length env.variants env.parseLocal (env.clock 0) home hf
  · intro env u p home tok hga hh ht hi
    simp only [main_run, hga, hh, ht, hi, if_true]
    exact hti_true_length env.variants env.parseLocal (env.clock 0) home ht

/-- Claim C7, counterexample: in `envPartial` the timezone lookup
fails after three lines were already printed — the run fails yet a
strict non-empty part of the cycle's metrics (3 of the 6 lines the
same device data produce in `envFull`) has been emitted. -/
theorem c7_nonatomic_counterexample :
    (main_run envPartial "u" "p").2 = false ∧
    (main_run envPartial "u" "p").1 ≠ [] ∧
    (main_run envPartial "u" "p").1.length = 3 ∧
    (main_run envFull "u" "p").1.length = 6 := by
  exact ⟨by decide, by decide, by decide, by decide⟩

/-- Claim C7, witness: the amended theorem applied to `envPartial`. -/
theorem c7_witness : (main_run envPartial "u" "p").1.length = 3 :=
  c7_emission_structure.2.1 envPartial "u" "p" home0 "Basic dTpw" rfl rfl rfl

/-- Claim C8, amended: all lines of one `home_to_influx` call carry
that call's clock reading, and all lines of one `inverters_to_influx`
call carry that call's clock reading — but the two calls read the
clock separately, so the two groups need not share a timestamp. -/
theorem c8_per_call_timestamp :
    (∀ (variants : List Tz) (pl : Tz → String → Option Int) (now : Nat)
      (home : HomeResponse),
      ∀ l ∈ (home_to_influx variants pl now home).1, l.ts = now) ∧
    (∀ (now : Nat) (invs : List InvertersResponse),
      ∀ l ∈ inverters_to_influx now invs, l.ts = now) := by
  constructor
  · intro variants pl now home l hl
    rcases hz : selectZone variants home.timezone with _ | z
    · simp [home_to_influx, hz] at hl
      rcases hl with h | h | h <;> subst h <;> rfl
    · rcases hp : pl z (home.current_date ++ " " ++ home.current_time) with _ | t
      · simp [home_to_influx, hz, hp] at hl
        rcases hl with h | h | h <;> subst h <;> rfl
      · simp [home_to_influx, hz, hp] at hl
        rcases hl with h | h | h | h | h <;> subst h <;> rfl
  · intro now invs l hl
    simp only [inverters_to_influx, List.mem_map] at hl
    obtain ⟨inv, hinv, h⟩ := hl
    subst h
    rfl

/-- Claim C8, counterexample: in `envFull` the collector clock
advances between the two `SystemTime::now()` calls (readings 0 and 1),
so the system-status lines carry timestamp 0 while the inverter line
carries timestamp 1 — not one and the same timestamp. -/
theorem c8_two_timestamps_counterexample :
    ¬ (∀ l1 ∈ (main_run envFull "u" "p").1, ∀ l2 ∈ (main_run envFull "u" "p").1,
        l1.ts = l2.ts) := by
  intro h
  have hmap : (main_run envFull "u" "p").1.map MetricLine.ts = [0, 0, 0, 0, 0, 1] := by
    decide
  have h0 : (0 : Nat) ∈ (main_run envFull "u" "p").1.map MetricLine.ts := by
    rw [hmap]
    decide
  have h1 : (1 : Nat) ∈ (main_run envFull "u" "p").1.map MetricLine.ts := by
    rw [hmap]
    decide
  obtain ⟨l1, hl1, e1⟩ := List.mem_map.mp h0
  obtain ⟨l2, hl2, e2⟩ := List.mem_map.mp h1
  have he := h l1 hl1 l2 hl2
  rw [e1, e2] at he
  exact absurd he (by decide)

/-- Claim C8, witness: a concrete line of a `home_to_influx` call with
clock reading 7 carries timestamp 7. -/
theorem c8_witness :
    (⟨"database total_size=12582912,percent_full=1", 7⟩ : MetricLine).ts = 7 := by
  have hm : (⟨"database total_size=12582912,percent_full=1", 7⟩ : MetricLine)
      ∈ (home_to_influx [tzNY] (fun _ _ => some 0) 7 home0).1 := by decide
  exact c8_per_call_timestamp.1 [tzNY] (fun _ _ => some 0) 7 home0 _ hm

/-- Claim C9: the Credential Responder is deterministic — two
invocations with the same username and password under the same
challenge (realm, nonce, algorithm hint) and the same handshake
method/URI pair produce byte-identical tokens.  The responder is
modelled from the spec (§4.2), since its implementation lives in the
external `http_auth` crate outside src/. -/
theorem c9_responder_deterministic (hash : String → String)
    (realm nonce method uri : String) (u1 p1 u2 p2 : String)
    (hu : u1 = u2) (hp : p1 = p2) :
    credentialResponder hash realm nonce method uri u1 p1
      = credentialResponder hash realm nonce method uri u2 p2 := by
  rw [hu, hp]

/-- Claim C9, witness: two invocations on identical concrete inputs
agree. -/
theorem c9_witness :
    credentialResponder (fun s => s) "enphase" "abc123" "GET" "*" "installer" "pw"
      = credentialResponder (fun s => s) "enphase" "abc123" "GET" "*" "installer" "pw" :=
  c9_responder_deterministic (fun s => s) "enphase" "abc123" "GET" "*"
    "installer" "pw" "installer" "pw" rfl rfl
